import Mathlib

/-!
Shallow embedding of the two-green-candle filter strategy
(`src/2_green_filter.py` and `src/src/two_green_filter_binance.py`).

Candles, processed rows and signal matches are modelled with exact rational
arithmetic in place of IEEE floats; pandas NaN entries of the `MA28` column
become `Option.none`; the per-symbol `self.data` dict becomes an
insertion-ordered association list; network calls become explicit
`Except`-valued oracles passed as arguments.
-/

namespace TwoGreen

/-- One OHLCV observation, the raw row shape fetched from the exchange
(`timestamp, Open, High, Low, Close, Volume` columns of the DataFrame). -/
structure Candle where
  timestamp : Int
  Open : ℚ
  High : ℚ
  Low : ℚ
  Close : ℚ
  Volume : ℚ
deriving Repr, DecidableEq, Inhabited

/-- A processed DataFrame row: the raw candle plus the derived columns
`is_green` and `MA28` computed in `fetch_data`
(`src/2_green_filter.py` lines 76-82). `MA28` is `none` where pandas
stores NaN (fewer than 28 samples in the rolling window). -/
structure Row extends Candle where
  is_green : Bool
  MA28 : Option ℚ
deriving Repr, DecidableEq, Inhabited

/-- One entry of the `matching_pairs` dict appended in
`filter_pairs_with_signals` (`src/2_green_filter.py` lines 131-139). -/
structure SignalMatch where
  symbol : String
  last_close : ℚ
  last_date : Int
  ma28 : ℚ
  stop_loss : ℚ
  risk_pct : ℚ
  volume : ℚ
deriving Repr, DecidableEq, Inhabited

/-- One entry of the ccxt `load_markets()` dictionary: the market key
(e.g. `"BTC/USDT"`) together with its tradable flag. `2_green_filter.py`
iterates `markets.keys()` and never reads the flag. -/
structure Market where
  symbol : String
  active : Bool
deriving Repr, DecidableEq

/-- One entry of the Binance `exchangeInfo` payload consumed by
`two_green_filter_binance.py` lines 33-38. -/
structure SymbolInfo where
  symbol : String
  quoteAsset : String
  status : String
deriving Repr, DecidableEq

/-- The pandas rolling mean `df['Close'].rolling(window=28).mean()` at
index `i`: mean of the 28 closes ending at `i`, NaN (here `none`)
while fewer than 28 samples exist. -/
def ma28 (closes : List ℚ) (i : Nat) : Option ℚ :=
  if 27 ≤ i ∧ i < closes.length then
    some ((((closes.drop (i - 27)).take 28).sum) / 28)
  else
    none

/-- The derived-column computation of `fetch_data`
(`src/2_green_filter.py` lines 76-79): `is_green = Close > Open` per row
and the 28-sample rolling mean column. -/
def processSeries (candles : List Candle) : List Row :=
  (List.range candles.length).map fun i =>
    let c := candles.getD i default
    { toCandle := c
      is_green := decide (c.Open < c.Close)
      MA28 := ma28 (candles.map Candle.Close) i }

/-- `df.iloc[-1]` on the row list. -/
def lastRow (df : List Row) : Row :=
  df.getD (df.length - 1) default

/-- `df.iloc[-2]` on the row list. -/
def sndLastRow (df : List Row) : Row :=
  df.getD (df.length - 2) default

/-- The per-symbol body of `filter_pairs_with_signals`
(`src/2_green_filter.py` lines 108-139): skip the symbol when the series
is shorter than 30 rows or `MA28` is NaN at the last row; otherwise emit
a match exactly when the last two rows are green and the last close is
above the last `MA28`. -/
def evaluate (symbol : String) (df : List Row) : Option SignalMatch :=
  if df.length < 30 ∨ (lastRow df).MA28 = none then
    none
  else if 2 ≤ df.length then
    let last_candle := lastRow df
    let second_last_candle := sndLastRow df
    if last_candle.is_green = true ∧ second_last_candle.is_green = true ∧
        last_candle.MA28.getD 0 < last_candle.Close then
      let stop_loss := min last_candle.Low second_last_candle.Low
      let risk_pct := (last_candle.Close / stop_loss - 1) * 100
      some { symbol := symbol
             last_close := last_candle.Close
             last_date := last_candle.timestamp
             ma28 := last_candle.MA28.getD 0
             stop_loss := stop_loss
             risk_pct := risk_pct
             volume := last_candle.Volume }
    else
      none
  else
    none

/-- Stable insertion step of the descending-volume sort. A later element
`x` passes every element of strictly larger volume and stops in front of
the first element whose volume is `≤` its own, so equal-volume elements
keep their original relative order — the documented behaviour of Python
`sorted(key=..., reverse=True)` used at `src/2_green_filter.py` line 142. -/
def insertDesc (x : SignalMatch) : List SignalMatch → List SignalMatch
  | [] => [x]
  | y :: ys => if y.volume ≤ x.volume then x :: y :: ys else y :: insertDesc x ys

/-- Models `sorted(matching_pairs, key=lambda x: x['volume'], reverse=True)`:
a stable sort by volume descending. -/
def sortByVolumeDesc : List SignalMatch → List SignalMatch
  | [] => []
  | x :: xs => insertDesc x (sortByVolumeDesc xs)

/-- `filter_pairs_with_signals` of `src/2_green_filter.py` (lines 97-145)
as a function of the fetched data `self.data` (an insertion-ordered
association list of symbol and processed rows). -/
def filter_pairs_with_signals (data : List (String × List Row)) : List SignalMatch :=
  sortByVolumeDesc (data.filterMap fun p => evaluate p.1 p.2)

/-- Python's `str.endswith`, modelled structurally on the character
lists of the two strings. -/
def endswith (s suffix : String) : Bool :=
  suffix.data.isSuffixOf s.data

/-- `fetch_all_pairs` of `src/2_green_filter.py` (lines 26-42): on a
successful `load_markets()` keep the market keys ending in `/quote`;
any exception is caught and an empty list is returned. -/
def fetch_all_pairs (quote : String) (markets : Except String (List Market)) : List String :=
  match markets with
  | Except.error _ => []
  | Except.ok ms =>
      (ms.map Market.symbol).filter fun s => endswith s ("/" ++ quote)

/-- `fetch_all_pairs` of `src/src/two_green_filter_binance.py`
(lines 24-44): keep symbols whose `quoteAsset` matches and whose
`status` is `"TRADING"`; any exception is caught and an empty list is
returned. -/
def fetch_all_pairs_binance (quote : String) (info : Except String (List SymbolInfo)) :
    List String :=
  match info with
  | Except.error _ => []
  | Except.ok items =>
      (items.filter fun it => it.quoteAsset == quote && it.status == "TRADING").map
        SymbolInfo.symbol

/-- The line `symbols = all_symbols[:limit_pairs] if limit_pairs else
all_symbols` (`src/2_green_filter.py` line 55): Python truthiness makes
both `None` and `0` select every symbol. -/
def select_symbols (all_symbols : List String) (limit_pairs : Option Nat) : List String :=
  match limit_pairs with
  | some n => if n ≠ 0 then all_symbols.take n else all_symbols
  | none => all_symbols

/-- The per-symbol fetch loop of `fetch_data`
(`src/2_green_filter.py` lines 62-93): each symbol's OHLCV request is
wrapped in its own try/except, so a failing symbol is skipped (the
exception is printed) and the loop continues; a symbol with an empty
payload is also skipped; a successful non-empty payload is processed
and stored under the symbol. -/
def processSymbols (symbols : List String) (fetch : String → Except String (List Candle)) :
    List (String × List Row) :=
  symbols.filterMap fun s =>
    match fetch s with
    | Except.error _ => none
    | Except.ok ohlcv =>
        if 0 < ohlcv.length then some (s, processSeries ohlcv) else none

/-- `fetch_data` of `src/2_green_filter.py` (lines 44-95) as a function
of the listing outcome and the per-symbol candle oracle. -/
def fetch_data (quote : String) (markets : Except String (List Market))
    (fetch : String → Except String (List Candle)) (limit_pairs : Option Nat) :
    List (String × List Row) :=
  processSymbols (select_symbols (fetch_all_pairs quote markets) limit_pairs) fetch

/-- The end-to-end scan of the `__main__` block of `src/2_green_filter.py`
(lines 234-247): `fetch_data` followed by `filter_pairs_with_signals`. -/
def run_scan (quote : String) (markets : Except String (List Market))
    (fetch : String → Except String (List Candle)) (limit_pairs : Option Nat) :
    List SignalMatch :=
  filter_pairs_with_signals (fetch_data quote markets fetch limit_pairs)

/-- The per-symbol body of `filter_pairs_with_signals` of
`src/src/two_green_filter_binance.py` (lines 136-167), transcribed
independently of the ccxt variant. -/
def evaluate_binance (symbol : String) (df : List Row) : Option SignalMatch :=
  if df.length < 30 ∨ (lastRow df).MA28 = none then
    none
  else if 2 ≤ df.length then
    let last_candle := lastRow df
    let second_last_candle := sndLastRow df
    if last_candle.is_green = true ∧ second_last_candle.is_green = true ∧
        last_candle.MA28.getD 0 < last_candle.Close then
      let stop_loss := min last_candle.Low second_last_candle.Low
      let risk_pct := (last_candle.Close / stop_loss - 1) * 100
      some { symbol := symbol
             last_close := last_candle.Close
             last_date := last_candle.timestamp
             ma28 := last_candle.MA28.getD 0
             stop_loss := stop_loss
             risk_pct := risk_pct
             volume := last_candle.Volume }
    else
      none
  else
    none

/-- The stable descending insertion step for the Binance variant's
`sorted(..., reverse=True)` call (line 170), transcribed independently. -/
def insertDescB (x : SignalMatch) : List SignalMatch → List SignalMatch
  | [] => [x]
  | y :: ys => if y.volume ≤ x.volume then x :: y :: ys else y :: insertDescB x ys

/-- The Binance variant's stable sort by volume descending. -/
def sortByVolumeDescB : List SignalMatch → List SignalMatch
  | [] => []
  | x :: xs => insertDescB x (sortByVolumeDescB xs)

/-- The signal-filtering step of `filter_pairs_with_signals` of
`src/src/two_green_filter_binance.py` (lines 121-173) as a function of
the fetched data; the `self.fetch_data()` call that populates
`self.data` (line 132) is factored out as the `data` argument. -/
def filter_pairs_with_signals_binance (data : List (String × List Row)) :
    List SignalMatch :=
  sortByVolumeDescB (data.filterMap fun p => evaluate_binance p.1 p.2)

/-! Concrete data used by the witnesses and counterexamples. -/

/-- A filler row for the head of a 30-row series; its fields are never
read by `evaluate`. -/
def fillerRow : Row :=
  { timestamp := 0, Open := 1, High := 3, Low := 1, Close := 2, Volume := 10,
    is_green := false, MA28 := none }

/-- Second-to-last row of the matching witness series: green, low 1. -/
def wRow28 : Row :=
  { timestamp := 28, Open := 1, High := 3, Low := 1, Close := 2, Volume := 10,
    is_green := true, MA28 := none }

/-- Last row of the matching witness series: green, close 4 above its
moving average 3, low 2. -/
def wRow29 : Row :=
  { timestamp := 29, Open := 1, High := 5, Low := 2, Close := 4, Volume := 5,
    is_green := true, MA28 := some 3 }

/-- A 30-row series whose last two rows are green and whose last close
sits above the last moving average. -/
def wDf : List Row := List.replicate 28 fillerRow ++ [wRow28, wRow29]

/-- C2: for every series shorter than 30 rows, and for every series whose
`MA28` is NaN (`none`) at the last row, `evaluate` returns no match; it is
a total function, so no error is raised. -/
theorem evaluate_none_of_short_or_na (symbol : String) (df : List Row)
    (h : df.length < 30 ∨ (lastRow df).MA28 = none) :
    evaluate symbol df = none := by
  unfold evaluate
  rw [if_pos h]

/-- Witness for C2: the empty series produces no match. -/
theorem evaluate_none_of_short_or_na_witness : evaluate "X" [] = none :=
  evaluate_none_of_short_or_na "X" [] (Or.inl (by decide))

/-- C10: a `limit_pairs` of `0` is falsy in Python, so the cap line keeps
every listed symbol, exactly as `None` does; only a strictly positive cap
truncates to the first `limit_pairs` symbols. -/
theorem limit_pairs_zero_is_no_cap :
    (∀ all_symbols : List String, select_symbols all_symbols (some 0) = all_symbols) ∧
    (∀ (all_symbols : List String) (n : Nat), 0 < n →
      select_symbols all_symbols (some n) = all_symbols.take n) ∧
    (∀ (quote : String) (markets : Except String (List Market))
        (fetch : String → Except String (List Candle)),
      fetch_data quote markets fetch (some 0) = fetch_data quote markets fetch none) := by
  refine ⟨fun l => rfl, fun l n hn => ?_, fun q m f => rfl⟩
  show (if n ≠ 0 then l.take n else l) = l.take n
  rw [if_pos (by omega)]

/-- Witness for C10: a cap of 2 keeps the first two of three symbols. -/
theorem limit_pairs_zero_is_no_cap_witness :
    select_symbols ["A", "B", "C"] (some 2) = ["A", "B"] :=
  limit_pairs_zero_is_no_cap.2.1 ["A", "B", "C"] 2 (by decide)

/-- C1: under the preconditions (at least 30 rows and a defined `MA28` at
the last row), `evaluate` emits a match exactly when the last two rows are
green and the last close strictly exceeds the last `MA28`; the emitted
match carries the last close, last timestamp, last `MA28`, the minimum of
the last two lows as stop loss, the risk percentage and the last volume. -/
theorem evaluate_match_iff (symbol : String) (df : List Row)
    (h30 : 30 ≤ df.length) (ma : ℚ) (hma : (lastRow df).MA28 = some ma) :
    (evaluate symbol df = some
      { symbol := symbol
        last_close := (lastRow df).Close
        last_date := (lastRow df).timestamp
        ma28 := ma
        stop_loss := min (lastRow df).Low (sndLastRow df).Low
        risk_pct := ((lastRow df).Close / min (lastRow df).Low (sndLastRow df).Low - 1) * 100
        volume := (lastRow df).Volume } ↔
      ((lastRow df).is_green = true ∧ (sndLastRow df).is_green = true ∧
        ma < (lastRow df).Close)) ∧
    (¬ ((lastRow df).is_green = true ∧ (sndLastRow df).is_green = true ∧
        ma < (lastRow df).Close) → evaluate symbol df = none) := by
  have h1 : ¬ (df.length < 30 ∨ (lastRow df).MA28 = none) := by
    rw [hma]
    push_neg
    exact ⟨by omega, by simp⟩
  have h2 : 2 ≤ df.length := by omega
  unfold evaluate
  rw [if_neg h1, if_pos h2]
  simp only [hma, Option.getD_some]
  by_cases hc : (lastRow df).is_green = true ∧ (sndLastRow df).is_green = true ∧
      ma < (lastRow df).Close
  · rw [if_pos hc]
    exact ⟨⟨fun _ => hc, fun _ => rfl⟩, fun h => absurd hc h⟩
  · rw [if_neg hc]
    exact ⟨⟨fun h => Option.noConfusion h, fun h => absurd h hc⟩, fun _ => rfl⟩

/-- Witness for C1: a concrete 30-row series with two green final candles
closing above the moving average yields exactly the described match. -/
theorem evaluate_match_iff_witness :
    evaluate "BTC/USDT" wDf = some
      { symbol := "BTC/USDT"
        last_close := (lastRow wDf).Close
        last_date := (lastRow wDf).timestamp
        ma28 := 3
        stop_loss := min (lastRow wDf).Low (sndLastRow wDf).Low
        risk_pct := ((lastRow wDf).Close / min (lastRow wDf).Low (sndLastRow wDf).Low - 1) * 100
        volume := (lastRow wDf).Volume } :=
  (evaluate_match_iff "BTC/USDT" wDf (by decide) 3 (by decide)).1.mpr (by decide)

/-- Second-to-last row of the zero-stop-loss series: green with low 0. -/
def zRow28 : Row :=
  { timestamp := 28, Open := 1, High := 3, Low := 0, Close := 2, Volume := 10,
    is_green := true, MA28 := none }

/-- Last row of the zero-stop-loss series: green, close 2 above its
moving average 1, low 0. -/
def zRow29 : Row :=
  { timestamp := 29, Open := 1, High := 3, Low := 0, Close := 2, Volume := 5,
    is_green := true, MA28 := some 1 }

/-- A 30-row matching series whose last two lows are 0, so the computed
stop loss is 0. -/
def zeroStopDf : List Row := List.replicate 28 fillerRow ++ [zRow28, zRow29]

/-- Counterexample to C3 as stated: on a matching series whose stop loss
is 0, the code has no guard at all — the match is emitted, not dropped or
flagged. (In the Python source the division `Close / 0` on numpy floats
yields `inf` with a warning; in this exact-rational model division by zero
yields 0, hence the `-100`. Either way the match with `stop_loss = 0` is
emitted.) -/
theorem zero_stop_loss_match_emitted :
    evaluate "AAA" zeroStopDf = some
      { symbol := "AAA", last_close := 2, last_date := 29, ma28 := 1,
        stop_loss := 0, risk_pct := -100, volume := 5 } := by
  have hlast : lastRow zeroStopDf = zRow29 := rfl
  have hsnd : sndLastRow zeroStopDf = zRow28 := rfl
  unfold evaluate
  rw [if_neg (by decide), if_pos (by decide)]
  simp only [hlast, hsnd]
  rw [if_pos (show zRow29.is_green = true ∧ zRow28.is_green = true ∧
      zRow29.MA28.getD 0 < zRow29.Close by decide)]
  simp only [zRow29, zRow28, Option.getD_some, Option.some.injEq, SignalMatch.mk.injEq]
  norm_num [min_def]

/-- C3 amended: every emitted match with a non-zero stop loss carries
`riskPct = (close / stopLoss - 1) * 100`; a zero stop loss does not drop
the match (see the counterexample), it only degenerates the division. -/
theorem risk_pct_formula (symbol : String) (df : List Row) (m : SignalMatch)
    (hm : evaluate symbol df = some m) (hs : m.stop_loss ≠ 0) :
    m.risk_pct = (m.last_close / m.stop_loss - 1) * 100 := by
  unfold evaluate at hm
  dsimp only at hm
  split at hm
  · exact Option.noConfusion hm
  · split at hm
    · split at hm
      · injection hm with h
        rw [← h]
      · exact Option.noConfusion hm
    · exact Option.noConfusion hm

/-- The match emitted by `evaluate` on the witness series `wDf`:
stop loss `min 2 1 = 1`, risk percentage `(4 / 1 - 1) * 100 = 300`. -/
def wMatch : SignalMatch :=
  { symbol := "BTC/USDT", last_close := 4, last_date := 29, ma28 := 3,
    stop_loss := 1, risk_pct := 300, volume := 5 }

/-- Evaluating the witness series yields the concrete match `wMatch`. -/
theorem evaluate_wDf : evaluate "BTC/USDT" wDf = some wMatch := by
  have hlast : lastRow wDf = wRow29 := rfl
  have hsnd : sndLastRow wDf = wRow28 := rfl
  unfold evaluate
  rw [if_neg (by decide), if_pos (by decide)]
  simp only [hlast, hsnd]
  rw [if_pos (show wRow29.is_green = true ∧ wRow28.is_green = true ∧
      wRow29.MA28.getD 0 < wRow29.Close by decide)]
  simp only [wRow29, wRow28, wMatch, Option.getD_some, Option.some.injEq, SignalMatch.mk.injEq]
  norm_num [min_def]

/-- Witness for the amended C3: on the concrete matching series the
emitted risk percentage satisfies the formula. -/
theorem risk_pct_formula_witness :
    wMatch.risk_pct = (wMatch.last_close / wMatch.stop_loss - 1) * 100 :=
  risk_pct_formula "BTC/USDT" wDf wMatch evaluate_wDf (by norm_num [wMatch])

/-- A candle oracle that returns an empty payload for every symbol. -/
def emptyFetch : String → Except String (List Candle) :=
  fun _ => Except.ok []

/-- Counterexample to C4 as stated: a scan whose metadata listing failed
returns the very same empty match list as a successful scan over an empty
exchange — `fetch_all_pairs` swallows the exception and returns `[]`, so
there is no `Failed` outcome distinguishable from an empty result. -/
theorem failed_listing_scan_indistinguishable :
    run_scan "USDT" (Except.error "exchange unreachable") emptyFetch none = [] ∧
    run_scan "USDT" (Except.ok []) emptyFetch none = [] :=
  ⟨rfl, rfl⟩

/-- C4 amended: when the metadata listing fails, `fetch_all_pairs`
catches the exception and returns the empty symbol list, so the whole
scan completes normally with an empty match list — indistinguishable from
a successful scan in which no pair matches. -/
theorem failed_listing_yields_empty_scan (quote : String) (e : String)
    (fetch : String → Except String (List Candle)) (limit_pairs : Option Nat) :
    run_scan quote (Except.error e) fetch limit_pairs = [] := by
  have hsel : select_symbols (fetch_all_pairs quote (Except.error e)) limit_pairs = [] := by
    cases limit_pairs with
    | none => rfl
    | some n =>
        show (if n ≠ 0 then List.take n [] else []) = []
        rw [List.take_nil]
        split <;> rfl
  show filter_pairs_with_signals
    (processSymbols (select_symbols (fetch_all_pairs quote (Except.error e)) limit_pairs)
      fetch) = []
  rw [hsel]
  rfl

/-- Counterexample to C6 as stated: the ccxt variant
(`src/2_green_filter.py`) filters market keys only by the `/quote`
suffix and never reads the trading status, so a non-tradable symbol is
returned. -/
theorem inactive_symbol_listed :
    fetch_all_pairs "USDT" (Except.ok [{ symbol := "XYZ/USDT", active := false }]) =
      ["XYZ/USDT"] := by
  decide

/-- C6 amended: the Binance variant returns exactly the symbols whose
quote asset matches and whose status is `"TRADING"`; the ccxt variant
returns exactly the market keys ending in `/quote`, regardless of
trading status. -/
theorem listing_filters (quote : String) (items : List SymbolInfo) (ms : List Market) :
    (∀ s : String, s ∈ fetch_all_pairs_binance quote (Except.ok items) ↔
      ∃ it : SymbolInfo, it ∈ items ∧ it.symbol = s ∧ it.quoteAsset = quote ∧
        it.status = "TRADING") ∧
    (∀ s : String, s ∈ fetch_all_pairs quote (Except.ok ms) ↔
      ∃ m : Market, m ∈ ms ∧ m.symbol = s ∧ endswith s ("/" ++ quote) = true) := by
  constructor
  · intro s
    unfold fetch_all_pairs_binance
    simp only [List.mem_map, List.mem_filter, Bool.and_eq_true, beq_iff_eq]
    constructor
    · rintro ⟨it, ⟨hmem, hq, hst⟩, hsym⟩
      exact ⟨it, hmem, hsym, hq, hst⟩
    · rintro ⟨it, hmem, hsym, hq, hst⟩
      exact ⟨it, ⟨hmem, hq, hst⟩, hsym⟩
  · intro s
    unfold fetch_all_pairs
    simp only [List.mem_filter, List.mem_map]
    constructor
    · rintro ⟨⟨m, hmem, hsym⟩, hsuf⟩
      exact ⟨m, hmem, hsym, hsuf⟩
    · rintro ⟨m, hmem, hsym, hsuf⟩
      exact ⟨⟨m, hmem, hsym⟩, hsuf⟩

/-- Membership in the insertion step of the descending sort. -/
theorem mem_insertDesc (z x : SignalMatch) (l : List SignalMatch) :
    z ∈ insertDesc x l ↔ z = x ∨ z ∈ l := by
  induction l with
  | nil => simp [insertDesc]
  | cons y ys ih =>
      unfold insertDesc
      split
      · simp [List.mem_cons]
      · simp only [List.mem_cons, ih]
        tauto

/-- Inserting into a volume-descending list keeps it volume-descending. -/
theorem pairwise_insertDesc (x : SignalMatch) (l : List SignalMatch)
    (hl : l.Pairwise fun a b => b.volume ≤ a.volume) :
    (insertDesc x l).Pairwise fun a b => b.volume ≤ a.volume := by
  induction l with
  | nil => simp [insertDesc]
  | cons y ys ih =>
      rw [List.pairwise_cons] at hl
      obtain ⟨hy, hys⟩ := hl
      unfold insertDesc
      split
      · rename_i hle
        rw [List.pairwise_cons]
        refine ⟨?_, List.pairwise_cons.mpr ⟨hy, hys⟩⟩
        intro z hz
        rcases List.mem_cons.mp hz with rfl | hz
        · exact hle
        · exact le_trans (hy z hz) hle
      · rename_i hgt
        rw [List.pairwise_cons]
        refine ⟨?_, ih hys⟩
        intro z hz
        rcases (mem_insertDesc z x ys).mp hz with rfl | hz
        · exact le_of_lt (lt_of_not_le hgt)
        · exact hy z hz

/-- The sorted output is pairwise volume-descending. -/
theorem pairwise_sortByVolumeDesc (l : List SignalMatch) :
    (sortByVolumeDesc l).Pairwise fun a b => b.volume ≤ a.volume := by
  induction l with
  | nil => simp [sortByVolumeDesc]
  | cons x xs ih => exact pairwise_insertDesc x _ ih

/-- The insertion step is stable: filtering at any volume `v` either
prepends `x` (when `x` has volume `v`, since `x` only passes elements of
strictly larger volume) or leaves the filtered list unchanged. -/
theorem filter_insertDesc (v : ℚ) (x : SignalMatch) (l : List SignalMatch) :
    (insertDesc x l).filter (fun m => decide (m.volume = v)) =
      if x.volume = v then x :: l.filter (fun m => decide (m.volume = v))
      else l.filter (fun m => decide (m.volume = v)) := by
  induction l with
  | nil =>
      by_cases hv : x.volume = v <;> simp [insertDesc, hv]
  | cons y ys ih =>
      unfold insertDesc
      split
      · by_cases hv : x.volume = v <;> simp [List.filter_cons, hv]
      · rename_i hgt
        have hxy : x.volume < y.volume := lt_of_not_le hgt
        by_cases hv : x.volume = v
        · have hyv : ¬ (y.volume = v) := fun h => (ne_of_gt hxy) (h.trans hv.symm)
          simp [List.filter_cons, hv, hyv, ih]
        · simp only [List.filter_cons, ih, if_neg hv]

/-- The full sort is stable: filtering the sorted output at any volume
gives exactly the filtered input, in input order. -/
theorem filter_sortByVolumeDesc (v : ℚ) (l : List SignalMatch) :
    (sortByVolumeDesc l).filter (fun m => decide (m.volume = v)) =
      l.filter (fun m => decide (m.volume = v)) := by
  induction l with
  | nil => rfl
  | cons x xs ih =>
      show (insertDesc x (sortByVolumeDesc xs)).filter _ = _
      rw [filter_insertDesc]
      by_cases hv : x.volume = v
      · rw [if_pos hv, ih, List.filter_cons, if_pos (by simp [hv])]
      · rw [if_neg hv, ih, List.filter_cons, if_neg (by simp [hv])]

/-- C5: the ranked output of `filter_pairs_with_signals` is sorted by
volume in descending order (every adjacent pair satisfies
`volume[i] >= volume[i+1]`), and the sort is stable: matches of any given
volume appear in the same relative order in which the per-symbol scan
encountered them. -/
theorem ranked_output_sorted_stable (data : List (String × List Row)) :
    List.Chain' (fun a b => b.volume ≤ a.volume) (filter_pairs_with_signals data) ∧
    ∀ v : ℚ, (filter_pairs_with_signals data).filter (fun m => decide (m.volume = v)) =
      (data.filterMap fun p => evaluate p.1 p.2).filter (fun m => decide (m.volume = v)) := by
  constructor
  · exact (pairwise_sortByVolumeDesc _).chain'
  · intro v
    exact filter_sortByVolumeDesc v _

/-- Characterization of the per-symbol fetch loop: a symbol/series pair
is stored exactly when the symbol was iterated, its fetch succeeded with
a non-empty payload, and the series is that payload processed. -/
theorem mem_processSymbols (symbols : List String)
    (fetch : String → Except String (List Candle)) (s : String) (df : List Row) :
    (s, df) ∈ processSymbols symbols fetch ↔
      s ∈ symbols ∧ ∃ c : List Candle,
        fetch s = Except.ok c ∧ 0 < c.length ∧ df = processSeries c := by
  rw [processSymbols, List.mem_filterMap]
  constructor
  · rintro ⟨t, ht, hft⟩
    cases hf : fetch t with
    | error e =>
        rw [hf] at hft
        exact absurd hft (by simp)
    | ok c =>
        rw [hf] at hft
        dsimp only at hft
        by_cases hc : 0 < c.length
        · rw [if_pos hc] at hft
          injection hft with h
          cases h
          exact ⟨ht, c, hf, hc, rfl⟩
        · rw [if_neg hc] at hft
          exact Option.noConfusion hft
  · rintro ⟨hs, c, hc, hlen, rfl⟩
    refine ⟨s, hs, ?_⟩
    rw [hc]
    dsimp only
    rw [if_pos hlen]

/-- C7: a candle-fetch failure is per-symbol recoverable — a symbol whose
fetch fails is excluded from the stored data, while every symbol whose
fetch succeeds with a non-empty payload is still processed and stored,
regardless of failures elsewhere in the iteration. -/
theorem per_symbol_fetch_failure_recoverable (symbols : List String)
    (fetch : String → Except String (List Candle)) :
    (∀ (s e : String), fetch s = Except.error e →
      ∀ df : List Row, (s, df) ∉ processSymbols symbols fetch) ∧
    (∀ (s : String) (c : List Candle), s ∈ symbols → fetch s = Except.ok c →
      0 < c.length → (s, processSeries c) ∈ processSymbols symbols fetch) := by
  constructor
  · intro s e he df hmem
    obtain ⟨_, c, hc, _, _⟩ := (mem_processSymbols symbols fetch s df).mp hmem
    rw [he] at hc
    exact Except.noConfusion hc
  · intro s c hs hc hlen
    exact (mem_processSymbols symbols fetch s (processSeries c)).mpr ⟨hs, c, hc, hlen, rfl⟩

/-- A single raw candle used by the C7 witness fetch oracle. -/
def wCandle : Candle :=
  { timestamp := 0, Open := 1, High := 3, Low := 1, Close := 2, Volume := 10 }

/-- A fetch oracle for which symbol `B` fails with a transport error and
every other symbol succeeds with one candle. -/
def wFetch : String → Except String (List Candle) :=
  fun s => if s = "B" then Except.error "transport failure" else Except.ok [wCandle]

/-- Witness for C7: with symbols `A`, `B`, `C` and `B` failing, `A` and
`C` are stored and `B` is excluded. -/
theorem per_symbol_fetch_failure_recoverable_witness :
    ("B", processSeries [wCandle]) ∉ processSymbols ["A", "B", "C"] wFetch ∧
    ("A", processSeries [wCandle]) ∈ processSymbols ["A", "B", "C"] wFetch ∧
    ("C", processSeries [wCandle]) ∈ processSymbols ["A", "B", "C"] wFetch :=
  ⟨(per_symbol_fetch_failure_recoverable ["A", "B", "C"] wFetch).1 "B" "transport failure"
      rfl (processSeries [wCandle]),
   (per_symbol_fetch_failure_recoverable ["A", "B", "C"] wFetch).2 "A" [wCandle]
      (by decide) rfl (by decide),
   (per_symbol_fetch_failure_recoverable ["A", "B", "C"] wFetch).2 "C" [wCandle]
      (by decide) rfl (by decide)⟩

/-- The sum of the slice `l[a .. a+b-1]` written as a sum over offsets. -/
theorem sum_drop_take (l : List ℚ) :
    ∀ (b a : Nat), a + b ≤ l.length →
      ((l.drop a).take b).sum = ∑ j in Finset.range b, l.getD (a + j) 0 := by
  intro b
  induction b with
  | zero => intro a _; simp
  | succ b ih =>
      intro a ha
      have halen : a < l.length := by omega
      rw [List.drop_eq_getElem_cons halen, List.take_succ_cons, List.sum_cons,
        ih (a + 1) (by omega), Finset.sum_range_succ']
      have h0 : l.getD (a + 0) 0 = l[a] := by
        rw [List.getD_eq_getElem?_getD, Nat.add_zero, List.getElem?_eq_getElem halen]
        rfl
      have hshift : ∑ j in Finset.range b, l.getD (a + 1 + j) 0 =
          ∑ j in Finset.range b, l.getD (a + (j + 1)) 0 :=
        Finset.sum_congr rfl fun j _ => by
          rw [show a + 1 + j = a + (j + 1) from by omega]
      rw [h0, hshift]
      exact add_comm _ _

/-- Reading row `i` of the processed series. -/
theorem processSeries_getD (candles : List Candle) (i : Nat) (hi : i < candles.length) :
    (processSeries candles).getD i default =
      { toCandle := candles.getD i default,
        is_green := decide ((candles.getD i default).Open < (candles.getD i default).Close),
        MA28 := ma28 (candles.map Candle.Close) i } := by
  unfold processSeries
  rw [List.getD_eq_getElem?_getD, List.getElem?_map, List.getElem?_range hi]
  rfl

/-- C8: for every processed series, `MA28` at index `i ≥ 27` equals the
unweighted arithmetic mean of the closes at indices `i-27 .. i`
inclusive, and is undefined (`none`, the model of pandas NaN) at every
index `i < 27`. -/
theorem ma28_is_trailing_mean (candles : List Candle) (i : Nat)
    (hi : i < candles.length) :
    (27 ≤ i → ((processSeries candles).getD i default).MA28 =
      some ((∑ j in Finset.Icc (i - 27) i, (candles.getD j default).Close) / 28)) ∧
    (i < 27 → ((processSeries candles).getD i default).MA28 = none) := by
  rw [processSeries_getD candles i hi]
  constructor
  · intro h27
    show ma28 (candles.map Candle.Close) i = _
    unfold ma28
    rw [if_pos ⟨h27, by simpa using hi⟩]
    have hslice := sum_drop_take (candles.map Candle.Close) 28 (i - 27)
      (by rw [List.length_map]; omega)
    rw [hslice]
    have hIcc : ∑ j in Finset.Icc (i - 27) i, (candles.getD j default).Close =
        ∑ j in Finset.range 28, (candles.getD (i - 27 + j) default).Close := by
      rw [← Nat.Ico_succ_right, Finset.sum_Ico_eq_sum_range,
        show i + 1 - (i - 27) = 28 from by omega]
    rw [hIcc]
    have hterm : ∑ j in Finset.range 28, (candles.map Candle.Close).getD (i - 27 + j) 0 =
        ∑ j in Finset.range 28, (candles.getD (i - 27 + j) default).Close :=
      Finset.sum_congr rfl fun j hj => by
        have hjl : i - 27 + j < candles.length := by
          have := Finset.mem_range.mp hj
          omega
        rw [List.getD_eq_getElem?_getD, List.getElem?_map, List.getElem?_eq_getElem hjl,
          List.getD_eq_getElem?_getD, List.getElem?_eq_getElem hjl]
        rfl
    rw [hterm]
  · intro hlt
    show ma28 (candles.map Candle.Close) i = none
    unfold ma28
    rw [if_neg (by rintro ⟨h1, _⟩; omega)]

/-- A 28-candle series: 27 filler candles closing at 2 and a last candle
closing at 30, so the first defined moving average is
`(27 * 2 + 30) / 28 = 3`. -/
def c28 : List Candle :=
  List.replicate 27 wCandle ++
    [{ timestamp := 27, Open := 1, High := 31, Low := 1, Close := 30, Volume := 10 }]

/-- Witness for C8: index 27 of the 28-candle series carries the mean of
closes 0 .. 27; index 26 is exercised through the same theorem in the
second conjunct at a different index below. -/
theorem ma28_is_trailing_mean_witness :
    ((processSeries c28).getD 27 default).MA28 =
      some ((∑ j in Finset.Icc 0 27, (c28.getD j default).Close) / 28) :=
  (ma28_is_trailing_mean c28 27 (by decide)).1 (by decide)

/-- The two variants' insertion steps agree. -/
theorem insertDesc_eq_B (x : SignalMatch) (l : List SignalMatch) :
    insertDesc x l = insertDescB x l := by
  induction l with
  | nil => rfl
  | cons y ys ih =>
      unfold insertDesc insertDescB
      by_cases h : y.volume ≤ x.volume <;> simp [h, ih]

/-- The two variants' sorts agree. -/
theorem sortByVolumeDesc_eq_B (l : List SignalMatch) :
    sortByVolumeDesc l = sortByVolumeDescB l := by
  induction l with
  | nil => rfl
  | cons x xs ih =>
      show insertDesc x (sortByVolumeDesc xs) = insertDescB x (sortByVolumeDescB xs)
      rw [ih, insertDesc_eq_B]

/-- C9: given identical per-symbol fetched data, the signal-filtering
steps of the two source variants produce identical match lists — the
same symbols, field values and output order. -/
theorem variants_filter_agree (data : List (String × List Row)) :
    filter_pairs_with_signals data = filter_pairs_with_signals_binance data := by
  have he : evaluate_binance = evaluate := rfl
  unfold filter_pairs_with_signals filter_pairs_with_signals_binance
  rw [he]
  exact sortByVolumeDesc_eq_B (data.filterMap fun p => evaluate p.1 p.2)

end TwoGreen
